import Mathlib

/-!
Verification of the lm_translator annotation engine.

This file gives a shallow embedding of the translation cache
(`src/lmStudioService.ts`), the comment validity filter, single-line
comment cleaning, the doc-tag description heuristic and the decoration
scheduler (`src/inlineDecoration.ts`), and proves or refutes the frozen
specification claims about them.

Modelling conventions: JavaScript strings are `List Char` (or Lean
`String` where text is treated opaquely), a JavaScript `Map` is an
association list in insertion order (`set` keeps the position of an
existing key and appends a new one), timestamps and TTL values are `Int`
exactly as JavaScript arithmetic on them, and the asynchronous pass of
`updateDecorations` is a function from its inputs plus an environment
schedule (the live generation token and active document observed after
each `await`) to a trace of observable events and the final cache.
-/

namespace LMT

/-- Mirrors the TranslationResult record of `src/types.ts`. -/
structure TranslationResult where
  originalText : String
  translatedText : String
  targetLanguage : String
  timestamp : Int
deriving DecidableEq, Repr

/-- The translation cache: a JavaScript `Map` from the composite key
`text ++ ":" ++ lang` to a result, as an association list in insertion
order (oldest entry first). -/
abbrev Cache : Type := List (String × TranslationResult)

/-- Lookup in a JavaScript `Map`: the value stored at the key, if any. -/
def mapGet (c : Cache) (k : String) : Option TranslationResult :=
  (List.find? (fun kv => kv.1 == k) c).map (fun kv => kv.2)

/-- `Map.set`: replace the value in place when the key exists (the entry
keeps its insertion position), otherwise append a new entry. -/
def mapSet (c : Cache) (k : String) (v : TranslationResult) : Cache :=
  if List.any c (fun kv => kv.1 == k) then
    List.map (fun kv => if kv.1 == k then (k, v) else kv) c
  else
    c ++ [(k, v)]

/-- `Map.delete`: remove the entry with the given key. -/
def mapDelete (c : Cache) (k : String) : Cache :=
  List.filter (fun kv => kv.1 != k) c

/-- Keys of the cache in insertion order, as `Array.from(map.keys())`. -/
def mapKeys (c : Cache) : List String :=
  List.map (fun kv => kv.1) c

/-- The per-entry keep test of the sweep loop in
`LMStudioService.cleanCache`: the loop deletes an entry exactly when
`now - value.timestamp > ttl`. -/
def sweepKeeps (now ttl : Int) (kv : String × TranslationResult) : Bool :=
  if now - kv.2.timestamp > ttl then false else true

/-- Embeds `LMStudioService.cleanCache` (`src/lmStudioService.ts`): first
delete every entry with `now - value.timestamp > ttl`, then, if the size
still exceeds `maxSize`, delete the first `size - maxSize` keys in
insertion order.  Saving to persistent storage is outside the model. -/
def cleanCache (now ttl : Int) (maxSize : Nat) (c : Cache) : Cache :=
  let c1 : Cache := List.filter (sweepKeeps now ttl) c
  if c1.length > maxSize then
    let keysToDelete := List.take (c1.length - maxSize) (mapKeys c1)
    List.foldl mapDelete c1 keysToDelete
  else c1

/-- Embeds `LMStudioService.getCachedResult`: look up the composite key
and return the entry only when `now - cached.timestamp < ttl`. -/
def getCachedResult (c : Cache) (text lang : String) (now ttl : Int) :
    Option TranslationResult :=
  match mapGet c (text ++ ":" ++ lang) with
  | some cached => if now - cached.timestamp < ttl then some cached else none
  | none => none

theorem cleanCache_eq_filter_then (now ttl : Int) (maxSize : Nat) (c : Cache) :
    cleanCache now ttl maxSize c =
      (if (List.filter (sweepKeeps now ttl) c).length > maxSize then
         List.foldl mapDelete (List.filter (sweepKeeps now ttl) c)
           (List.take ((List.filter (sweepKeeps now ttl) c).length - maxSize)
             (mapKeys (List.filter (sweepKeeps now ttl) c)))
       else List.filter (sweepKeeps now ttl) c) := rfl

/-- Deleting the head key of a cache whose key is absent from the tail
removes exactly the head entry. -/
theorem mapDelete_head (kv : String × TranslationResult) (rest : Cache)
    (hnotin : kv.1 ∉ mapKeys rest) :
    mapDelete (kv :: rest) kv.1 = rest := by
  unfold mapDelete
  rw [List.filter_cons]
  have hk : (kv.1 != kv.1) = false := by simp
  rw [hk]
  simp only [Bool.false_eq_true, if_false]
  apply List.filter_eq_self.mpr
  intro kv2 hkv2
  simp only [bne_iff_ne, ne_eq]
  intro hEq
  exact hnotin (by simpa [mapKeys, hEq] using List.mem_map_of_mem (fun p => p.1) hkv2)

/-- Deleting the first `n` keys (in insertion order) from a cache with
pairwise distinct keys drops the first `n` entries. -/
theorem foldl_mapDelete_take (c : Cache) (hnd : (mapKeys c).Nodup) (n : Nat) :
    List.foldl mapDelete c (List.take n (mapKeys c)) = List.drop n c := by
  induction c generalizing n with
  | nil => simp [mapKeys]
  | cons kv rest ih =>
    cases n with
    | zero => simp
    | succ m =>
      simp only [mapKeys, List.map_cons, List.nodup_cons] at hnd
      have hhead : mapDelete (kv :: rest) kv.1 = rest :=
        mapDelete_head kv rest hnd.1
      simp only [mapKeys, List.map_cons, List.take_succ_cons, List.foldl_cons,
        List.drop_succ_cons]
      rw [show mapDelete (kv :: rest) kv.1 = rest from hhead]
      exact ih hnd.2 m

/-- The keys of a filtered cache stay pairwise distinct. -/
theorem mapKeys_filter_nodup (p : String × TranslationResult → Bool) (c : Cache)
    (hnd : (mapKeys c).Nodup) : (mapKeys (List.filter p c)).Nodup := by
  unfold mapKeys at *
  exact List.Nodup.sublist (List.Sublist.map _ (List.filter_sublist c)) hnd

/-- Storing a key and then reading it back yields the stored value. -/
theorem mapGet_mapSet_self (c : Cache) (k : String) (v : TranslationResult) :
    mapGet (mapSet c k v) k = some v := by
  induction c with
  | nil =>
    unfold mapSet mapGet
    simp [List.find?]
  | cons a c ih =>
    by_cases ha : (a.1 == k) = true
    · have h1 : List.any (a :: c) (fun kv => kv.1 == k) = true := by
        simp [List.any_cons, ha]
      unfold mapSet
      rw [if_pos h1, List.map_cons]
      have hfa : (if (a.1 == k) = true then (k, v) else a) = (k, v) := if_pos ha
      rw [hfa]
      unfold mapGet
      rw [List.find?_cons_of_pos _ (by simp)]
      rfl
    · have hbf : (a.1 == k) = false := by simpa using ha
      by_cases hc : List.any c (fun kv => kv.1 == k) = true
      · have h1 : List.any (a :: c) (fun kv => kv.1 == k) = true := by
          simp [List.any_cons, hc]
        unfold mapSet
        rw [if_pos h1, List.map_cons]
        have hfa : (if (a.1 == k) = true then (k, v) else a) = a :=
          if_neg (by simp [hbf])
        rw [hfa]
        unfold mapGet
        rw [List.find?_cons_of_neg _ (by simp [hbf])]
        have ih2 := ih
        unfold mapSet at ih2
        rw [if_pos hc] at ih2
        unfold mapGet at ih2
        exact ih2
      · have h1 : ¬ (List.any (a :: c) (fun kv => kv.1 == k) = true) := by
          simp only [List.any_cons, Bool.or_eq_true, not_or]
          exact ⟨by simp [hbf], hc⟩
        unfold mapSet
        rw [if_neg h1, List.cons_append]
        unfold mapGet
        rw [List.find?_cons_of_neg _ (by simp [hbf])]
        have ih2 := ih
        unfold mapSet at ih2
        rw [if_neg hc] at ih2
        unfold mapGet at ih2
        exact ih2

/-- C2: a sweep (`cleanCache`) first deletes every entry whose age
exceeds the TTL; if more than `maxSize` entries remain it then deletes
oldest-inserted entries until exactly `maxSize` remain.  In particular,
after inserting `maxSize + 100` distinct unexpired entries, a sweep
leaves exactly the `maxSize` most-recently-inserted entries (the final
`drop 100` suffix of the insertion order). -/
theorem cleanCache_spec (now ttl : Int) (maxSize : Nat) (c : Cache)
    (hnd : (mapKeys c).Nodup) :
    (cleanCache now ttl maxSize c =
      (if (List.filter (sweepKeeps now ttl) c).length > maxSize then
         List.drop ((List.filter (sweepKeeps now ttl) c).length - maxSize)
           (List.filter (sweepKeeps now ttl) c)
       else List.filter (sweepKeeps now ttl) c))
    ∧ ((∀ kv ∈ c, sweepKeeps now ttl kv = true) → c.length = maxSize + 100 →
        cleanCache now ttl maxSize c = List.drop 100 c ∧
        (cleanCache now ttl maxSize c).length = maxSize) := by
  have hkeysnd := mapKeys_filter_nodup (sweepKeeps now ttl) c hnd
  have hgen : cleanCache now ttl maxSize c =
      (if (List.filter (sweepKeeps now ttl) c).length > maxSize then
         List.drop ((List.filter (sweepKeeps now ttl) c).length - maxSize)
           (List.filter (sweepKeeps now ttl) c)
       else List.filter (sweepKeeps now ttl) c) := by
    rw [cleanCache_eq_filter_then]
    by_cases hgt : (List.filter (sweepKeeps now ttl) c).length > maxSize
    · rw [if_pos hgt, if_pos hgt]
      exact foldl_mapDelete_take _ hkeysnd _
    · rw [if_neg hgt, if_neg hgt]
  refine ⟨hgen, fun hall hlen => ?_⟩
  have hfe : List.filter (sweepKeeps now ttl) c = c := List.filter_eq_self.mpr hall
  have hgt : (List.filter (sweepKeeps now ttl) c).length > maxSize := by
    rw [hfe, hlen]; omega
  have hdrop : cleanCache now ttl maxSize c = List.drop 100 c := by
    rw [hgen, if_pos hgt, hfe, hlen]
    congr 1
    omega
  refine ⟨hdrop, ?_⟩
  rw [hdrop, List.length_drop, hlen]
  omega

/-- Concrete cache of 101 entries with distinct keys and timestamp 0,
used to witness `cleanCache_spec` with `maxSize = 1`. -/
def cacheWitness : Cache :=
  (List.range 101).map
    (fun i => (Nat.repr i, ⟨Nat.repr i, "t", "Vietnamese", 0⟩))

theorem cleanCache_spec_witness :
    cleanCache 1 5 1 cacheWitness = List.drop 100 cacheWitness ∧
    (cleanCache 1 5 1 cacheWitness).length = 1 :=
  (cleanCache_spec 1 5 1 cacheWitness (by decide)).2 (by decide) (by decide)

/-- C5: `getCachedResult` returns the stored entry exactly when an entry
exists under the composite key `text ++ ":" ++ lang` and its age is
strictly below the TTL; in particular an entry inserted at `t0` with
`ttl = T` is absent at time `t0 + T + 1`. -/
theorem getCachedResult_spec (c : Cache) (text lang tr : String)
    (now ttl t0 T : Int) (r : TranslationResult) :
    (getCachedResult c text lang now ttl = some r ↔
      mapGet c (text ++ ":" ++ lang) = some r ∧ now - r.timestamp < ttl)
    ∧ getCachedResult
        (mapSet c (text ++ ":" ++ lang) ⟨text, tr, lang, t0⟩)
        text lang (t0 + T + 1) T = none := by
  constructor
  · unfold getCachedResult
    cases hm : mapGet c (text ++ ":" ++ lang) with
    | none => simp
    | some cached =>
      show (if now - cached.timestamp < ttl then some cached else none) = some r ↔
        some cached = some r ∧ now - r.timestamp < ttl
      by_cases hlt : now - cached.timestamp < ttl
      · rw [if_pos hlt]
        constructor
        · intro h
          injection h with h
          subst h
          exact ⟨rfl, hlt⟩
        · rintro ⟨heq, _⟩
          injection heq with heq
          rw [heq]
      · rw [if_neg hlt]
        constructor
        · intro h; exact absurd h (by simp)
        · rintro ⟨heq, hl⟩
          injection heq with heq
          subst heq
          exact absurd hl hlt
  · unfold getCachedResult
    rw [mapGet_mapSet_self]
    show (if t0 + T + 1 - t0 < T then
        some (⟨text, tr, lang, t0⟩ : TranslationResult) else none) = none
    rw [if_neg (by omega : ¬ (t0 + T + 1 - t0 < T))]

theorem getCachedResult_spec_witness :
    getCachedResult
      (mapSet [] ("hello" ++ ":" ++ "Vietnamese")
        ⟨"hello", "xin chao", "Vietnamese", 7⟩)
      "hello" "Vietnamese" (7 + 3 + 1) 3 = none :=
  (getCachedResult_spec [] "hello" "Vietnamese" "xin chao" 0 3 7 3
    ⟨"hello", "xin chao", "Vietnamese", 7⟩).2

/-! ### Character classes used by the extractor regexes -/

/-- JavaScript regex `\s`: the ECMAScript white-space and line-terminator
set. -/
def isJsWs (c : Char) : Bool :=
  c == ' ' || c == '\t' || c == '\n' || c == '\r' ||
  c.toNat == 0x0B || c.toNat == 0x0C || c.toNat == 0xA0 ||
  c.toNat == 0x1680 ||
  (decide (0x2000 ≤ c.toNat) && decide (c.toNat ≤ 0x200A)) ||
  c.toNat == 0x2028 || c.toNat == 0x2029 || c.toNat == 0x202F ||
  c.toNat == 0x205F || c.toNat == 0x3000 || c.toNat == 0xFEFF

/-- Regex class `[a-zA-Z]`. -/
def isAsciiLetter (c : Char) : Bool :=
  (decide (0x41 ≤ c.toNat) && decide (c.toNat ≤ 0x5A)) ||
  (decide (0x61 ≤ c.toNat) && decide (c.toNat ≤ 0x7A))

/-- Regex class `[0-9]`. -/
def isAsciiDigit (c : Char) : Bool :=
  decide (0x30 ≤ c.toNat) && decide (c.toNat ≤ 0x39)

/-- Regex class `[a-zA-Z0-9_$]` of the bare-identifier test in
`isValidComment` and of the `allIdentifiers` word test. -/
def isIdentDollarChar (c : Char) : Bool :=
  isAsciiLetter c || isAsciiDigit c || c == '_' || c == '$'

/-- Regex class `[぀-ゟ゠-ヿ一-龯]`: hiragana,
katakana and the CJK unified range used by the extractor. -/
def isCjkChar (c : Char) : Bool :=
  (decide (0x3040 ≤ c.toNat) && decide (c.toNat ≤ 0x309F)) ||
  (decide (0x30A0 ≤ c.toNat) && decide (c.toNat ≤ 0x30FF)) ||
  (decide (0x4E00 ≤ c.toNat) && decide (c.toNat ≤ 0x9FAF))

/-- Regex `/^[a-zA-Z0-9_\$]+$/` of `isValidComment`. -/
def identAllRe (t : List Char) : Bool :=
  !t.isEmpty && t.all isIdentDollarChar

/-- Regex `/[a-zA-Z぀-ゟ゠-ヿ一-龯]/` of
`isValidComment`. -/
def letterCjkRe (t : List Char) : Bool :=
  t.any (fun c => isAsciiLetter c || isCjkChar c)

/-- Regex `/^[\s\*\-\/=]+$/` of `isValidComment`. -/
def symbolOnlyRe (t : List Char) : Bool :=
  !t.isEmpty &&
    t.all (fun c => isJsWs c || c == '*' || c == '-' || c == '/' || c == '=')

/-- Embeds `InlineDecorationProvider.isValidComment`
(`src/inlineDecoration.ts`): reject bare identifiers, then require at
least two characters, a letter or CJK character, and not a pure
symbol/whitespace run. -/
def isValidComment (t : List Char) : Bool :=
  if identAllRe t then false
  else decide (t.length ≥ 2) && letterCjkRe t && !symbolOnlyRe t

/-- C6: the validity filter rejects fragments under 2 characters, bare
identifiers over `[a-zA-Z0-9_$]`, fragments with no ASCII letter and no
CJK character, and pure symbol/whitespace runs; it rejects the concrete
examples "tableId", "$id", "---", "a" and accepts "User ID",
"初期化処理", "Check db connection". -/
theorem isValidComment_spec :
    (∀ t : List Char, t.length < 2 → isValidComment t = false)
    ∧ (∀ t : List Char, t ≠ [] → (∀ c ∈ t, isIdentDollarChar c = true) →
        isValidComment t = false)
    ∧ (∀ t : List Char,
        (∀ c ∈ t, isAsciiLetter c = false ∧ isCjkChar c = false) →
        isValidComment t = false)
    ∧ (∀ t : List Char, t ≠ [] →
        (∀ c ∈ t,
          (isJsWs c || c == '*' || c == '-' || c == '/' || c == '=') = true) →
        isValidComment t = false)
    ∧ isValidComment "tableId".data = false
    ∧ isValidComment "$id".data = false
    ∧ isValidComment "---".data = false
    ∧ isValidComment "a".data = false
    ∧ isValidComment "User ID".data = true
    ∧ isValidComment "初期化処理".data = true
    ∧ isValidComment "Check db connection".data = true := by
  refine ⟨?_, ?_, ?_, ?_, by decide, by decide, by decide, by decide,
    by decide, by decide, by decide⟩
  · intro t hlen
    unfold isValidComment
    by_cases hid : identAllRe t
    · rw [if_pos hid]
    · rw [if_neg hid]
      have : decide (t.length ≥ 2) = false := by
        simp only [decide_eq_false_iff_not]
        omega
      rw [this, Bool.false_and, Bool.false_and]
  · intro t hne hall
    unfold isValidComment
    have hid : identAllRe t = true := by
      unfold identAllRe
      refine Bool.and_eq_true_iff.mpr ⟨?_, List.all_eq_true.mpr hall⟩
      simpa using hne
    rw [if_pos hid]
  · intro t hall
    unfold isValidComment
    have hlc : letterCjkRe t = false := by
      unfold letterCjkRe
      rw [List.any_eq_false]
      intro c hc
      rw [(hall c hc).1, (hall c hc).2]
      simp
    by_cases hid : identAllRe t
    · rw [if_pos hid]
    · rw [if_neg hid, hlc, Bool.and_false, Bool.false_and]
  · intro t hne hall
    unfold isValidComment
    have hso : symbolOnlyRe t = true := by
      unfold symbolOnlyRe
      refine Bool.and_eq_true_iff.mpr ⟨by simpa using hne, List.all_eq_true.mpr hall⟩
    by_cases hid : identAllRe t
    · rw [if_pos hid]
    · rw [if_neg hid, hso]
      simp

theorem isValidComment_spec_witness :
    isValidComment "x".data = false ∧ isValidComment "q_9".data = false ∧
    isValidComment "%%".data = false ∧ isValidComment "- - ".data = false :=
  ⟨isValidComment_spec.1 "x".data (by decide),
   isValidComment_spec.2.1 "q_9".data (by decide) (by decide),
   isValidComment_spec.2.2.1 "%%".data (by decide),
   isValidComment_spec.2.2.2.1 "- - ".data (by decide) (by decide)⟩

/-! ### Trimming and single-line comment cleaning -/

/-- Leading-whitespace removal, the left half of `String.trim`. -/
def jsTrimLeft (l : List Char) : List Char :=
  List.dropWhile isJsWs l

/-- Trailing-whitespace removal, the right half of `String.trim`. -/
def jsTrimRight (l : List Char) : List Char :=
  (List.dropWhile isJsWs l.reverse).reverse

/-- JavaScript `String.trim`: strip white space on both ends. -/
def jsTrim (l : List Char) : List Char :=
  jsTrimRight (jsTrimLeft l)

/-- Embeds `.replace(/^(\/\/|#|--)\s*/, '')` of the single-line scan in
`updateDecorations`: remove a leading `//`, `#` or `--` marker together
with the white space that follows it, only when the marker is at the very
start of the matched text. -/
def stripStartMarker (l : List Char) : List Char :=
  match l with
  | c1 :: c2 :: rest =>
    if c1 == '/' && c2 == '/' then List.dropWhile isJsWs rest
    else if c1 == '-' && c2 == '-' then List.dropWhile isJsWs rest
    else if c1 == '#' then List.dropWhile isJsWs (c2 :: rest)
    else l
  | [c1] => if c1 == '#' then [] else l
  | [] => []

/-- The cleaning applied to every single-line regex match:
`match[0].replace(/^(\/\/|#|--)\s*/, '').trim()`. -/
def cleanSingleLine (m : List Char) : List Char :=
  jsTrim (stripStartMarker m)

/-- The single-line fragment produced from a matched comment: the cleaned
text when it passes the validity filter, nothing otherwise. -/
def singleLineFragmentText (m : List Char) : Option (List Char) :=
  let cleanText := cleanSingleLine m
  if isValidComment cleanText then some cleanText else none

/-! ### Single-line dialect selection by language identifier -/

def slashSlashLangs : List String :=
  ["javascript", "typescript", "javascriptreact", "typescriptreact",
   "java", "c", "cpp", "csharp", "go", "rust", "swift", "kotlin",
   "php", "scss", "less", "json", "jsonc"]

def hashLangs : List String :=
  ["python", "ruby", "perl", "shellscript", "yaml", "toml", "dockerfile"]

def doubleDashLangs : List String :=
  ["sql", "plsql", "lua", "haskell"]

def htmlLikeLangs : List String :=
  ["html", "phtml", "blade", "twig", "ejs", "handlebars", "vue"]

/-- The three single-line comment regex dialects of `updateDecorations`:
slash-slash to end of line, `#` at line start to end of line, and
dash-dash to end of line. -/
inductive LinePattern
  | slashSlash
  | hashStart
  | doubleDash
deriving DecidableEq, Repr

/-- Embeds the pattern-selection block of `updateDecorations`: push the
dialects enabled for the language identifier, falling back to `//` when
none applies. -/
def singleLinePatterns (languageId : String) : List LinePattern :=
  let p1 : List LinePattern :=
    if slashSlashLangs.contains languageId || htmlLikeLangs.contains languageId
    then [LinePattern.slashSlash] else []
  let p2 : List LinePattern :=
    if hashLangs.contains languageId then [LinePattern.hashStart] else []
  let p3 : List LinePattern :=
    if doubleDashLangs.contains languageId then [LinePattern.doubleDash] else []
  let ps := p1 ++ p2 ++ p3
  if ps.isEmpty then [LinePattern.slashSlash] else ps

/-! ### Helper lemmas about trimming -/

/-- A white-space character is not one of the comment marker characters. -/
theorem isJsWs_not_marker {c : Char} (h : isJsWs c = true) :
    (c == '/') = false ∧ (c == '-') = false ∧ (c == '#') = false := by
  refine ⟨?_, ?_, ?_⟩
  · by_cases hc : c = '/'
    · subst hc; exact absurd h (by decide)
    · exact beq_eq_false_iff_ne.mpr hc
  · by_cases hc : c = '-'
    · subst hc; exact absurd h (by decide)
    · exact beq_eq_false_iff_ne.mpr hc
  · by_cases hc : c = '#'
    · subst hc; exact absurd h (by decide)
    · exact beq_eq_false_iff_ne.mpr hc

/-- The marker regex does not fire on text that starts with white space. -/
theorem stripStartMarker_ws_head {w : Char} (rest : List Char)
    (h : isJsWs w = true) : stripStartMarker (w :: rest) = w :: rest := by
  obtain ⟨h1, h2, h3⟩ := isJsWs_not_marker h
  cases rest with
  | nil =>
    rw [show stripStartMarker [w] =
      (if (w == '#') = true then [] else [w]) from rfl]
    rw [if_neg (by simp [h3])]
  | cons c2 r =>
    rw [show stripStartMarker (w :: c2 :: r) =
      (if (w == '/' && c2 == '/') = true then List.dropWhile isJsWs r
       else if (w == '-' && c2 == '-') = true then List.dropWhile isJsWs r
       else if (w == '#') = true then List.dropWhile isJsWs (c2 :: r)
       else w :: c2 :: r) from rfl]
    rw [if_neg (by simp [h1]), if_neg (by simp [h2]), if_neg (by simp [h3])]

/-- Dropping a prefix that fully satisfies the predicate. -/
theorem dropWhile_append_of_all {p : Char → Bool} {ws l : List Char}
    (h : ∀ c ∈ ws, p c = true) :
    List.dropWhile p (ws ++ l) = List.dropWhile p l := by
  rw [List.dropWhile_append]
  have hnil : List.dropWhile p ws = [] := by
    induction ws with
    | nil => rfl
    | cons c cs ih =>
      rw [List.dropWhile_cons_of_pos (h c (by simp))]
      exact ih (fun d hd => h d (by simp [hd]))
  rw [hnil]
  simp

/-- `dropWhile` is idempotent. -/
theorem dropWhile_idem (p : Char → Bool) (l : List Char) :
    List.dropWhile p (List.dropWhile p l) = List.dropWhile p l := by
  induction l with
  | nil => rfl
  | cons c rest ih =>
    by_cases h : p c
    · rw [List.dropWhile_cons_of_pos h]; exact ih
    · rw [List.dropWhile_cons_of_neg h, List.dropWhile_cons_of_neg h]

/-- Right trimming keeps a leading non-white-space character. -/
theorem jsTrimRight_cons_not_ws {c : Char} (h : isJsWs c = false)
    (l : List Char) : jsTrimRight (c :: l) = c :: jsTrimRight l := by
  unfold jsTrimRight
  rw [List.reverse_cons, List.dropWhile_append]
  by_cases he : (List.dropWhile isJsWs l.reverse).isEmpty = true
  · rw [if_pos he]
    rw [List.isEmpty_iff.mp he]
    rw [List.dropWhile_cons_of_neg (by simp [h])]
    simp
  · rw [if_neg he, List.reverse_append]
    simp

/-- C10: in a `#`-dialect language (python selects exactly the
line-start `#` pattern) the matched text of an indented `#` comment keeps
its `#` after cleaning, because the marker-stripping regex is anchored at
the start of the match, while a `#` comment at column 0 loses the marker
and its following white space. -/
theorem hash_comment_cleaning_spec :
    (singleLinePatterns "python" = [LinePattern.hashStart])
    ∧ (∀ ws body : List Char, ws ≠ [] → (∀ c ∈ ws, isJsWs c = true) →
        cleanSingleLine (ws ++ '#' :: body) = '#' :: jsTrimRight body)
    ∧ (∀ body : List Char, cleanSingleLine ('#' :: body) = jsTrim body)
    ∧ cleanSingleLine "  # load config".data = "# load config".data
    ∧ cleanSingleLine "# load config".data = "load config".data
    ∧ singleLineFragmentText "  # load config".data = some "# load config".data
    ∧ singleLineFragmentText "# load config".data = some "load config".data := by
  refine ⟨by decide, ?_, ?_, by decide, by decide, by decide, by decide⟩
  · intro ws body hne hall
    obtain ⟨w, ws2, rfl⟩ : ∃ w ws2, ws = w :: ws2 := by
      cases ws with
      | nil => exact absurd rfl hne
      | cons w ws2 => exact ⟨w, ws2, rfl⟩
    unfold cleanSingleLine
    rw [show (w :: ws2) ++ '#' :: body = w :: (ws2 ++ '#' :: body) from rfl]
    rw [stripStartMarker_ws_head _ (hall w (by simp))]
    unfold jsTrim jsTrimLeft
    rw [show w :: (ws2 ++ '#' :: body) = (w :: ws2) ++ '#' :: body from rfl]
    rw [dropWhile_append_of_all hall]
    rw [List.dropWhile_cons_of_neg (by decide)]
    exact jsTrimRight_cons_not_ws (by decide) body
  · intro body
    cases body with
    | nil => decide
    | cons c rest =>
      have h1 : stripStartMarker ('#' :: c :: rest) =
          List.dropWhile isJsWs (c :: rest) := by
        rw [show stripStartMarker ('#' :: c :: rest) =
          (if ('#' == '/' && c == '/') = true then List.dropWhile isJsWs rest
           else if ('#' == '-' && c == '-') = true then
             List.dropWhile isJsWs rest
           else if (('#' : Char) == '#') = true then
             List.dropWhile isJsWs (c :: rest)
           else '#' :: c :: rest) from rfl]
        rw [if_neg (by simp [(by decide : (('#' : Char) == '/') = false)]),
          if_neg (by simp [(by decide : (('#' : Char) == '-') = false)]),
          if_pos (by decide)]
      unfold cleanSingleLine
      rw [h1]
      unfold jsTrim jsTrimLeft
      rw [dropWhile_idem]

theorem hash_comment_cleaning_spec_witness :
    cleanSingleLine ("\t ".data ++ '#' :: " db init ".data) =
      '#' :: jsTrimRight " db init ".data ∧
    cleanSingleLine ('#' :: " db init ".data) = jsTrim " db init ".data :=
  ⟨hash_comment_cleaning_spec.2.1 "\t ".data " db init ".data
      (by decide) (by decide),
   hash_comment_cleaning_spec.2.2.1 " db init ".data⟩

/-! ### The doc-tag description heuristic of the block-comment scan -/

/-- Recursion core of `splitWs`; the fuel argument only bounds the
recursion depth so that the function is structurally recursive and
reduces in the kernel, and one unit of fuel per input character plus one
is always sufficient because every step consumes at least one
character. -/
def splitWsAux : Nat → List Char → List (List Char)
  | 0, _ => []
  | fuel + 1, l =>
    match List.dropWhile (fun c => !isJsWs c) l with
    | [] => [List.takeWhile (fun c => !isJsWs c) l]
    | _ :: rest2 =>
      List.takeWhile (fun c => !isJsWs c) l ::
        splitWsAux fuel (List.dropWhile isJsWs rest2)

/-- JavaScript `split(/\s+/)`: split on maximal white-space runs, keeping
an empty token at a boundary exactly as the ECMAScript split does. -/
def splitWs (l : List Char) : List (List Char) :=
  splitWsAux (l.length + 1) l

/-- JavaScript `array.join(' ')`. -/
def joinSpace : List (List Char) → List Char
  | [] => []
  | [w] => w
  | w :: x :: rest => w ++ ' ' :: joinSpace (x :: rest)

/-- JavaScript `string.includes(c)` for a single character. -/
def containsChar (l : List Char) (c : Char) : Bool :=
  l.any (fun d => d == c)

/-- The `word.startsWith` tests of the heuristic: a type or variable
token wrapped by a brace, bracket, dollar or angle character. -/
def startsWithSyntaxChar (w : List Char) : Bool :=
  match w with
  | c :: _ => c == '{' || c == '[' || c == '$' || c == '<'
  | [] => false

/-- Regex `/^[a-zA-Z_][a-zA-Z0-9_]*$/` of the heuristic word test. -/
def identWordRe (w : List Char) : Bool :=
  match w with
  | c :: cs =>
    (isAsciiLetter c || c == '_') &&
      cs.all (fun d => isAsciiLetter d || isAsciiDigit d || d == '_')
  | [] => false

/-- Regex `/^[a-zA-Z_$][a-zA-Z0-9_$]*$/` used by the `allIdentifiers`
check. -/
def identDollarWordRe (w : List Char) : Bool :=
  match w with
  | c :: cs =>
    (isAsciiLetter c || c == '_' || c == '$') && cs.all isIdentDollarChar
  | [] => false

/-- The `allIdentifiers` test of the heuristic: every remaining word is a
dollar-identifier or starts with a syntax character. -/
def allIdentifiers (ws : List (List Char)) : Bool :=
  ws.all (fun w => identDollarWordRe w || startsWithSyntaxChar w)

/-- CJK test applied to the candidate description. -/
def hasCjkText (l : List Char) : Bool :=
  l.any isCjkChar

/-- The description-search loop of the doc-tag heuristic
(`updateDecorations`, block-comment branch), over the words after the
tag. Returns the suffix of words from `descStartIndex` onwards, which the
code then joins with spaces; returning the suffix instead of the index is
equivalent because `parts.slice(j)` is exactly this suffix. -/
def findDesc : List (List Char) → Option (List (List Char))
  | [] => none
  | word :: rest =>
    if startsWithSyntaxChar word then findDesc rest
    else if identWordRe word && !containsChar word ' ' &&
        allIdentifiers (word :: rest) then
      findDesc rest
    else if containsChar (joinSpace (word :: rest)) ' ' ||
        hasCjkText (joinSpace (word :: rest)) then
      some (word :: rest)
    else findDesc rest

/-- The `@`-tag branch of the block-comment line processing: split the
line on white space, search the words after the tag for the description
start, and join the found suffix, or produce the empty string when no
description is recognised. -/
def processTagLine (t : List Char) : List Char :=
  let parts := splitWs t
  if parts.length > 1 then
    match findDesc parts.tail with
    | some suffix => joinSpace suffix
    | none => []
  else []

/-- `replace` of the leading `*` (with following white space) of a
C-style block line. -/
def stripLeadingStar (l : List Char) : List Char :=
  match l with
  | '*' :: rest => List.dropWhile isJsWs rest
  | l => l

/-- One line of a block comment as processed by `updateDecorations`:
trim, strip a leading `*` for C-style blocks, trim again, and apply the
doc-tag heuristic on lines starting with `@`. -/
def processBlockLine (cstyle : Bool) (line : List Char) : List Char :=
  let lineTrimmed := jsTrim line
  let t1 := if cstyle then stripLeadingStar lineTrimmed else lineTrimmed
  let t2 := jsTrim t1
  if t2.head? == some '@' then processTagLine t2 else t2

/-- The fragment a block line yields, after the validity filter. -/
def blockLineFragmentText (cstyle : Bool) (line : List Char) :
    Option (List Char) :=
  let t := processBlockLine cstyle line
  if isValidComment t then some t else none

/-- C1 (code bug): the heuristic is documented, in the specification and
in the comments of the source itself, to keep only the trailing
natural-language description of a tag line, so that
"@param \x7bstring\x7d name The user\x27s display name" yields
"The user\x27s display name". The code instead stops skipping at the
variable token `name` (because the later word "user\x27s" is not an
identifier, the all-identifiers skip rule fails there) and keeps it, and
on the source\x27s own documented examples it drops the whole line.
"@return void" yields no fragment, as stated. -/
theorem processTagLine_code_bug :
    processTagLine "@param {string} name The user\x27s display name".data
      = "name The user\x27s display name".data
    ∧ processBlockLine true
        "   * @param {string} name The user\x27s display name".data
      = "name The user\x27s display name".data
    ∧ processTagLine "@return void".data = []
    ∧ blockLineFragmentText true "   * @return void".data = none
    ∧ processTagLine "@param int $id User ID".data = []
    ∧ processTagLine "@param $id User ID".data = []
    ∧ processTagLine "@return string Result".data = []
    ∧ processTagLine "@throws Exception If error".data = [] := by
  refine ⟨by decide, by decide, by decide, by decide, by decide, by decide,
    by decide, by decide⟩

/-! ### Positions, ranges and viewport distance -/

/-- A zero-based document position as in the editor API. -/
structure Pos where
  line : Nat
  character : Nat
deriving DecidableEq, Repr

/-- A document range; the editor API calls the second field `end`, a
Lean keyword, so it is named `stop` here. -/
structure Range where
  start : Pos
  stop : Pos
deriving DecidableEq, Repr

/-- `Position.isBeforeOrEqual`: lexicographic order on (line, character). -/
def posLe (a b : Pos) : Bool :=
  decide (a.line < b.line) ||
    (a.line == b.line && decide (a.character ≤ b.character))

/-- `Range.contains(range)`: both endpoints of the inner range lie inside
the outer one. -/
def rangeContains (outer inner : Range) : Bool :=
  posLe outer.start inner.start && posLe inner.stop outer.stop

def posMax (a b : Pos) : Pos := if posLe a b then b else a

def posMin (a b : Pos) : Pos := if posLe a b then a else b

/-- Truthiness of `Range.intersection(range)`: the intersection exists
(possibly empty, which is still a truthy object) exactly when the later
start does not pass the earlier end. -/
def rangeIntersects (a b : Range) : Bool :=
  posLe (posMax a.start b.start) (posMin a.stop b.stop)

/-- Stand-in for `Number.MAX_VALUE`: any value strictly larger than every
line distance that can arise. -/
def numberMaxValue : Nat := 2 ^ 53

/-- `Math.abs` of the difference of two line numbers. -/
def lineDist (a b : Nat) : Nat := max a b - min a b

/-- The accumulator loop inside
`InlineDecorationProvider.minDistanceToVisible`: return 0 on the first
visible range containing or intersecting the fragment range, otherwise
fold the minimum of the start-line and end-line distances. -/
def minDistanceToVisibleGo (range : Range) :
    List Range → Nat → Nat
  | [], m => m
  | v :: rest, m =>
    if rangeContains v range || rangeIntersects v range then 0
    else minDistanceToVisibleGo range rest
      (min m (min (lineDist range.start.line v.start.line)
                  (lineDist range.stop.line v.stop.line)))

/-- Embeds `InlineDecorationProvider.minDistanceToVisible`. -/
def minDistanceToVisible (range : Range) (visibleRanges : List Range) : Nat :=
  minDistanceToVisibleGo range visibleRanges numberMaxValue

/-! ### The decoration scheduler -/

/-- A comment fragment handed from the extractor to the scheduler. -/
structure Fragment where
  range : Range
  text : String
deriving DecidableEq, Repr

/-- The decoration display mode of the provider. -/
inductive Mode
  | off
  | inl
  | highlighted
deriving DecidableEq, Repr

/-- A rendered decoration option; the static style fields (color, font,
border), constant per mode, are omitted. -/
structure Deco where
  range : Range
  contentText : String
deriving DecidableEq, Repr

/-- Embeds `InlineDecorationProvider.createDecorationOption`. -/
def createDecorationOption (range : Range) (text : String) (mode : Mode) :
    Deco :=
  if mode = Mode.inl then
    { range := range, contentText := " → " ++ text }
  else
    { range := range, contentText := " 【" ++ text ++ "】" }

/-- The shared mutable state observed at a suspension point: the live
`activeRenderId` counter and the URI of the active document. -/
structure Env where
  liveId : Nat
  activeDoc : String
deriving DecidableEq, Repr

/-- Observable events of one `updateDecorations` pass.  Renders carry
the editor (document URI) they target, which the pass captured at its
start, and the environment observed when the event happened. -/
inductive Ev
  | clearRender (target : String)
  | renderBatch (target : String) (obs : Env) (decos : List Deco)
  | availQuery (result : Bool) (obs : Env)
  | translateReq (frag : Fragment) (obs : Env)
deriving DecidableEq, Repr

/-- Consume the next environment of the schedule at an `await`; when the
schedule is exhausted the environment stays unchanged. -/
def advance (cur : Env) : List Env → Env × List Env
  | [] => (cur, [])
  | e :: rest => (e, rest)

/-- Embeds `LMStudioService.translate`: serve from the cache when fresh,
otherwise consult the backend (the oracle; `none` models a thrown
request error), store the result under the composite key and sweep only
when the size exceeds `maxSize + 50`. -/
def translateModel (cache : Cache) (text lang : String) (now ttl : Int)
    (maxSize : Nat) (oracle : String → Option String) :
    Option (TranslationResult × Cache) :=
  match getCachedResult cache text lang now ttl with
  | some cached => some (cached, cache)
  | none =>
    match oracle text with
    | none => none
    | some translated =>
      let result : TranslationResult := ⟨text, translated, lang, now⟩
      let c1 := mapSet cache (text ++ ":" ++ lang) result
      let c2 := if c1.length > maxSize + 50 then cleanCache now ttl maxSize c1
        else c1
      some (result, c2)

/-- All inputs of one `updateDecorations` pass: the captured generation
token (equal to the live counter the pass just incremented), the active
document, the configuration, the fragments extracted from the document
text (extraction is a pure function of the text and language, so an
unchanged document yields the same list), the backend availability and
translation oracle, and the schedule of environments observed after each
`await`. -/
structure PassInput where
  renderId : Nat
  documentUri : String
  mode : Mode
  comments : List Fragment
  visibleRanges : List Range
  targetLang : String
  now : Int
  ttl : Int
  maxSize : Nat
  cache : Cache
  avail : Bool
  oracle : String → Option String
  envs : List Env

/-- Result of a pass: the trace of observable events and the cache. -/
structure PassOutput where
  trace : List Ev
  cache : Cache

/-- The cache-hit partition of the fragments: one decoration per
fragment whose text has a fresh cache entry for the target language. -/
def cachedDecorationsOf (inp : PassInput) : List Deco :=
  inp.comments.filterMap (fun c =>
    (getCachedResult inp.cache c.text inp.targetLang inp.now inp.ttl).map
      (fun r => createDecorationOption c.range r.translatedText inp.mode))

/-- The cache-miss partition of the fragments. -/
def missingCommentsOf (inp : PassInput) : List Fragment :=
  inp.comments.filter (fun c =>
    (getCachedResult inp.cache c.text inp.targetLang inp.now inp.ttl).isNone)

/-- The sort key relation of the viewport-proximity sort. -/
def distRel (vs : List Range) : Fragment → Fragment → Prop :=
  fun a b =>
    minDistanceToVisible a.range vs ≤ minDistanceToVisible b.range vs

instance (vs : List Range) : DecidableRel (distRel vs) :=
  fun a b => Nat.decLe _ _

instance (vs : List Range) : IsTotal Fragment (distRel vs) :=
  ⟨fun a b => Nat.le_total _ _⟩

instance (vs : List Range) : IsTrans Fragment (distRel vs) :=
  ⟨fun _ _ _ hab hbc => Nat.le_trans hab hbc⟩

/-- The `missingComments.sort` call, comparing by distance to the
visible ranges; a comparison sort with this comparator, modelled by
insertion sort. -/
def sortMissingByDistance (vs : List Range) (misses : List Fragment) :
    List Fragment :=
  List.insertionSort (distRel vs) misses

/-- The translate-and-render loop over the ordered cache misses (steps
of `updateDecorations` from the `for` loop to the final render): check
the generation token and the active document before each request, issue
the request, and after it resolves append the decoration and re-render —
guarded only by the token — when the fragment is visible or every fifth
accumulated result; after the loop, issue a final render when both the
token and the document still match.  The `renderId` parameter is the
comparison token the loop uses: in the source it is re-captured from the
live `activeRenderId` right after the availability await (shadowing the
pass-start capture), so the caller passes the post-await live value, not
the pass-start token. -/
def processMissing (renderId : Nat) (documentUri : String) (mode : Mode)
    (visibleRanges : List Range) (targetLang : String) (now ttl : Int)
    (maxSize : Nat) (oracle : String → Option String) :
    Env → List Env → Cache → List Fragment → List Deco → List Ev × Cache
  | env, _envs, cache, [], cur =>
    if env.liveId == renderId && env.activeDoc == documentUri then
      ([Ev.renderBatch documentUri env cur], cache)
    else ([], cache)
  | env, envs, cache, m :: rest, cur =>
    if !(env.liveId == renderId) || !(env.activeDoc == documentUri) then
      ([], cache)
    else
      let step := advance env envs
      match translateModel cache m.text targetLang now ttl maxSize oracle with
      | none =>
        let next := processMissing renderId documentUri mode visibleRanges
          targetLang now ttl maxSize oracle step.1 step.2 cache rest cur
        (Ev.translateReq m env :: next.1, next.2)
      | some rc =>
        let deco := createDecorationOption m.range rc.1.translatedText mode
        let cur2 := cur ++ [deco]
        let isVisible := visibleRanges.any
          (fun r => rangeContains r m.range || rangeIntersects r m.range)
        let renderEvs : List Ev :=
          if (isVisible || cur2.length % 5 == 0) &&
              step.1.liveId == renderId then
            [Ev.renderBatch documentUri step.1 cur2]
          else []
        let next := processMissing renderId documentUri mode visibleRanges
          targetLang now ttl maxSize oracle step.1 step.2 rc.2 rest cur2
        (Ev.translateReq m env :: renderEvs ++ next.1, next.2)

/-- Embeds `InlineDecorationProvider.updateDecorations`: clear and return
when the mode is off; otherwise render the cache hits immediately (the
clear of the inactive decoration type followed by the batch of cached
decorations), stop if there are no misses, query availability once and
stop when offline, and otherwise process the misses ordered by viewport
proximity.  The pass increments and captures the generation token before
any await (`inp.renderId`, equal to the live counter at pass start), but
the loop does not use that capture: a second `const renderId =
this.activeRenderId` after the availability await shadows it, so the
loop compares against the live counter as observed after that await
(`step.1.liveId` below) — a supersession happening during the
availability probe is therefore not detected by the loop. -/
def updateDecorations (inp : PassInput) : PassOutput :=
  if inp.mode = Mode.off then
    { trace := [Ev.clearRender inp.documentUri], cache := inp.cache }
  else
    let env0 : Env := { liveId := inp.renderId, activeDoc := inp.documentUri }
    let evs0 : List Ev :=
      [Ev.clearRender inp.documentUri,
       Ev.renderBatch inp.documentUri env0 (cachedDecorationsOf inp)]
    if (missingCommentsOf inp).isEmpty then
      { trace := evs0, cache := inp.cache }
    else
      let evs1 := evs0 ++ [Ev.availQuery inp.avail env0]
      if !inp.avail then { trace := evs1, cache := inp.cache }
      else
        let step := advance env0 inp.envs
        let sortedMisses :=
          sortMissingByDistance inp.visibleRanges (missingCommentsOf inp)
        let next := processMissing step.1.liveId inp.documentUri inp.mode
          inp.visibleRanges inp.targetLang inp.now inp.ttl inp.maxSize
          inp.oracle step.1 step.2 inp.cache sortedMisses
          (cachedDecorationsOf inp)
        { trace := evs1 ++ next.1, cache := next.2 }

/-- The decoration batches applied during a pass, in order. -/
def renderedBatches (trace : List Ev) : List (List Deco) :=
  trace.filterMap (fun e => match e with
    | Ev.renderBatch _ _ decos => some decos
    | _ => none)

/-- The fragments sent to the backend during a pass, in request order. -/
def requestedFrags (trace : List Ev) : List Fragment :=
  trace.filterMap (fun e => match e with
    | Ev.translateReq f _ => some f
    | _ => none)

def isNetworkEv : Ev → Bool
  | Ev.availQuery _ _ => true
  | Ev.translateReq _ _ => true
  | _ => false

def isAvailEv : Ev → Bool
  | Ev.availQuery _ _ => true
  | _ => false

def isTranslateEv : Ev → Bool
  | Ev.translateReq _ _ => true
  | _ => false

/-- The observed environment agrees with the captured generation token
and the captured document. -/
def envMatches (renderId : Nat) (documentUri : String) (e : Env) : Bool :=
  e.liveId == renderId && e.activeDoc == documentUri

/-- Per-event form of C4 as stated: a backend request or render happens
while both the live generation token and the active document agree with
the captured ones. -/
def c4ClaimOk (renderId : Nat) (documentUri : String) : Ev → Bool
  | Ev.renderBatch _ obs _ => envMatches renderId documentUri obs
  | Ev.translateReq _ obs => envMatches renderId documentUri obs
  | _ => true

/-- C4 as stated, over a whole trace. -/
def c4ClaimCheck (renderId : Nat) (documentUri : String)
    (trace : List Ev) : Bool :=
  trace.all (c4ClaimOk renderId documentUri)

/-- Per-event form of the amended C4: a backend request happens while
both the token and the document agree; a render targets the originally
captured editor and happens while the token agrees, but is not guarded
by the document check. -/
def c4AmendedOk (renderId : Nat) (documentUri : String) : Ev → Bool
  | Ev.clearRender target => target == documentUri
  | Ev.renderBatch target obs _ =>
      target == documentUri && obs.liveId == renderId
  | Ev.translateReq _ obs => envMatches renderId documentUri obs
  | Ev.availQuery _ _ => true

/-- The amended C4, over a whole trace. -/
def c4AmendedCheck (renderId : Nat) (documentUri : String)
    (trace : List Ev) : Bool :=
  trace.all (c4AmendedOk renderId documentUri)

/-- A pass with one visible cache miss whose active document switches
away while the translate request is in flight (the generation token
stays, which the full system permits when the decoration mode is turned
off before the switch, since neither path increments the counter). -/
def c4Input : PassInput :=
  { renderId := 1
    documentUri := "doc1"
    mode := Mode.inl
    comments := [⟨⟨⟨0, 0⟩, ⟨0, 10⟩⟩, "hello"⟩]
    visibleRanges := [⟨⟨0, 0⟩, ⟨5, 0⟩⟩]
    targetLang := "Vietnamese"
    now := 0
    ttl := 1000
    maxSize := 10
    cache := []
    avail := true
    oracle := fun t => if t == "hello" then some "xin chao" else none
    envs := [⟨1, "doc1"⟩, ⟨1, "doc2"⟩] }

/-- A pass whose generation token is bumped by a superseding pass during
the availability probe itself: the loop re-captures the new counter
value and proceeds as if nothing happened. -/
def c4InputB : PassInput :=
  { c4Input with envs := [⟨2, "doc1"⟩] }

/-- C4 counterexample: the claim as stated fails in two concrete passes.
In `c4Input` the active document switches while a translate request is
in flight, and the code still issues a render, because only the token is
compared before applying a result.  In `c4InputB` the generation token
is bumped during the availability probe, yet the pass issues its
translate request anyway, because the loop compares against a token
re-captured after that await instead of the pass-start capture. -/
theorem updateDecorations_stale_render_counterexample :
    (c4ClaimCheck c4Input.renderId c4Input.documentUri
      (updateDecorations c4Input).trace = false)
    ∧ (c4ClaimCheck c4InputB.renderId c4InputB.documentUri
        (updateDecorations c4InputB).trace = false)
    ∧ (updateDecorations c4InputB).trace.countP isTranslateEv = 1 := by
  refine ⟨by decide, by decide, by decide⟩

/-- The miss-processing loop satisfies the amended C4 discipline for
every environment schedule, cache and accumulated batch. -/
theorem processMissing_amendedCheck (renderId : Nat) (documentUri : String)
    (mode : Mode) (visibleRanges : List Range) (targetLang : String)
    (now ttl : Int) (maxSize : Nat) (oracle : String → Option String)
    (misses : List Fragment) :
    ∀ (env : Env) (envs : List Env) (cache : Cache) (cur : List Deco),
    c4AmendedCheck renderId documentUri
      (processMissing renderId documentUri mode visibleRanges targetLang
        now ttl maxSize oracle env envs cache misses cur).1 = true := by
  induction misses with
  | nil =>
    intro env envs cache cur
    unfold processMissing
    by_cases h : (env.liveId == renderId && env.activeDoc == documentUri) = true
    · rw [if_pos h]
      rcases Bool.and_eq_true_iff.mp h with ⟨hid, _⟩
      simp [c4AmendedCheck, c4AmendedOk, hid]
    · rw [if_neg h]
      simp [c4AmendedCheck]
  | cons m rest ih =>
    intro env envs cache cur
    unfold processMissing
    by_cases h :
        (!(env.liveId == renderId) || !(env.activeDoc == documentUri)) = true
    · rw [if_pos h]
      simp [c4AmendedCheck]
    · rw [if_neg h]
      rcases Bool.or_eq_false_iff.mp (Bool.eq_false_iff.mpr h) with ⟨ha, hb⟩
      have ha' : (env.liveId == renderId) = true := by simpa using ha
      have hb' : (env.activeDoc == documentUri) = true := by simpa using hb
      cases htr : translateModel cache m.text targetLang now ttl maxSize
          oracle with
      | none =>
        simp only [htr]
        have hnext := ih (advance env envs).1 (advance env envs).2 cache cur
        simp only [c4AmendedCheck, List.all_cons] at hnext ⊢
        rw [hnext]
        simp [c4AmendedOk, envMatches, ha', hb']
      | some rc =>
        simp only [htr]
        have hnext := ih (advance env envs).1 (advance env envs).2 rc.2
          (cur ++ [createDecorationOption m.range rc.1.translatedText mode])
        by_cases hr : ((visibleRanges.any (fun r =>
              rangeContains r m.range || rangeIntersects r m.range) ||
            (cur ++ [createDecorationOption m.range rc.1.translatedText
              mode]).length % 5 == 0) &&
            (advance env envs).1.liveId == renderId) = true
        · rw [if_pos hr]
          rcases Bool.and_eq_true_iff.mp hr with ⟨_, hid⟩
          simp only [c4AmendedCheck, List.all_cons, List.all_append,
            List.all_nil, Bool.and_true] at hnext ⊢
          rw [hnext]
          simp [c4AmendedOk, envMatches, ha', hb', hid]
        · rw [if_neg hr]
          simp only [c4AmendedCheck, List.all_append, List.all_cons,
            List.all_nil, List.nil_append, Bool.and_true] at hnext ⊢
          rw [hnext]
          simp [c4AmendedOk, envMatches, ha', hb']

/-- Per-event check that a render or clear targets the captured editor. -/
def renderTargetsOk (documentUri : String) : Ev → Bool
  | Ev.clearRender target => target == documentUri
  | Ev.renderBatch target _ _ => target == documentUri
  | _ => true

/-- All renders of a trace target the originally captured editor. -/
def renderTargetsCheck (documentUri : String) (trace : List Ev) : Bool :=
  trace.all (renderTargetsOk documentUri)

/-- The amended per-event discipline implies the render-target half. -/
theorem c4AmendedOk_targetsOk (renderId : Nat) (documentUri : String)
    (e : Ev) (h : c4AmendedOk renderId documentUri e = true) :
    renderTargetsOk documentUri e = true := by
  cases e with
  | clearRender t => exact h
  | renderBatch t obs d => exact (Bool.and_eq_true_iff.mp h).1
  | availQuery r obs => rfl
  | translateReq f obs => rfl

/-- A trace satisfying the amended discipline renders only to the
captured editor. -/
theorem c4AmendedCheck_targets (renderId : Nat) (documentUri : String)
    (trace : List Ev)
    (h : c4AmendedCheck renderId documentUri trace = true) :
    renderTargetsCheck documentUri trace = true := by
  unfold c4AmendedCheck at h
  unfold renderTargetsCheck
  rw [List.all_eq_true] at h ⊢
  intro e he
  exact c4AmendedOk_targetsOk renderId documentUri e (h e he)

/-- C4 amended: the pass captures the generation token when it starts,
but the miss loop compares against a token re-captured from the live
counter after the availability probe (the second
`const renderId = this.activeRenderId` shadows the pass-start capture),
so a supersession during that probe is not detected and the loop keeps
requesting and rendering.  What does hold: every render and clear of a
pass targets the originally captured editor, so a pass superseded by
switching the active document applies zero decorations to the new
document; and the loop, relative to its re-captured token and the
captured document, issues each translate request only while both still
match the live state — stopping with no further requests on a mismatch —
and issues renders only while the token matches, the per-result render
not being re-guarded by the document check. -/
theorem updateDecorations_cancellation_amended :
    (∀ inp : PassInput,
      renderTargetsCheck inp.documentUri (updateDecorations inp).trace
        = true)
    ∧ (∀ (renderId : Nat) (documentUri : String) (mode : Mode)
        (visibleRanges : List Range) (targetLang : String) (now ttl : Int)
        (maxSize : Nat) (oracle : String → Option String)
        (misses : List Fragment) (env : Env) (envs : List Env)
        (cache : Cache) (cur : List Deco),
        c4AmendedCheck renderId documentUri
          (processMissing renderId documentUri mode visibleRanges
            targetLang now ttl maxSize oracle env envs cache misses
            cur).1 = true) := by
  constructor
  · intro inp
    unfold updateDecorations
    by_cases hoff : inp.mode = Mode.off
    · rw [if_pos hoff]
      simp [renderTargetsCheck, renderTargetsOk]
    · rw [if_neg hoff]
      by_cases hmiss : (missingCommentsOf inp).isEmpty = true
      · rw [if_pos hmiss]
        simp [renderTargetsCheck, renderTargetsOk]
      · rw [if_neg hmiss]
        by_cases hav : (!inp.avail) = true
        · rw [if_pos hav]
          simp [renderTargetsCheck, renderTargetsOk]
        · rw [if_neg hav]
          simp only [renderTargetsCheck, List.all_append, List.all_cons,
            List.all_nil]
          refine Bool.and_eq_true_iff.mpr ⟨?_, ?_⟩
          · simp [renderTargetsOk]
          · exact c4AmendedCheck_targets _ _ _
              (processMissing_amendedCheck _ _ _ _ _ _ _ _ _ _ _ _ _ _)
  · intro renderId documentUri mode visibleRanges targetLang now ttl
      maxSize oracle misses env envs cache cur
    exact processMissing_amendedCheck _ _ _ _ _ _ _ _ _ _ _ _ _ _

/-- A `getCachedResult` that returns something returns exactly the entry
stored under the composite key. -/
theorem getCachedResult_isSome_eq (c : Cache) (text lang : String)
    (now ttl : Int)
    (h : (getCachedResult c text lang now ttl).isSome = true) :
    getCachedResult c text lang now ttl = mapGet c (text ++ ":" ++ lang) := by
  unfold getCachedResult at h ⊢
  cases hm : mapGet c (text ++ ":" ++ lang) with
  | none =>
    rw [hm] at h
  | some cached =>
    simp only [hm] at h ⊢
    by_cases hc : now - cached.timestamp < ttl
    · rw [if_pos hc]
    · rw [if_neg hc] at h
      exact absurd h (by decide)

/-- A `filterMap` whose function succeeds everywhere keeps the length. -/
theorem length_filterMap_isSome {α β : Type} (f : α → Option β) (l : List α)
    (h : ∀ a ∈ l, (f a).isSome = true) :
    (l.filterMap f).length = l.length := by
  induction l with
  | nil => rfl
  | cons a rest ih =>
    rw [List.filterMap_cons]
    cases hf : f a with
    | none => exact absurd (h a (by simp)) (by simp [hf])
    | some b =>
      simp only [List.length_cons]
      rw [ih (fun x hx => h x (by simp [hx]))]

/-- When every fragment is a fresh cache hit, the pass consists of the
clear of the inactive decoration type and the single batch of cached
decorations, and the cache is untouched. -/
theorem updateDecorations_all_hits (inp : PassInput)
    (hmode : inp.mode ≠ Mode.off)
    (hall : ∀ c ∈ inp.comments,
      (getCachedResult inp.cache c.text inp.targetLang inp.now
        inp.ttl).isSome = true) :
    updateDecorations inp =
      { trace := [Ev.clearRender inp.documentUri,
          Ev.renderBatch inp.documentUri
            ⟨inp.renderId, inp.documentUri⟩ (cachedDecorationsOf inp)],
        cache := inp.cache } := by
  have hmiss : missingCommentsOf inp = [] := by
    unfold missingCommentsOf
    rw [List.filter_eq_nil_iff]
    intro c hc h
    have h2 := hall c hc
    rw [Option.isNone_iff_eq_none.mp h] at h2
    exact absurd h2 (by decide)
  unfold updateDecorations
  rw [if_neg hmode, if_pos (by rw [hmiss]; rfl)]

/-- The miss-processing loop never queries availability. -/
theorem processMissing_countP_avail (renderId : Nat) (documentUri : String)
    (mode : Mode) (visibleRanges : List Range) (targetLang : String)
    (now ttl : Int) (maxSize : Nat) (oracle : String → Option String)
    (misses : List Fragment) :
    ∀ (env : Env) (envs : List Env) (cache : Cache) (cur : List Deco),
    ((processMissing renderId documentUri mode visibleRanges targetLang
      now ttl maxSize oracle env envs cache misses cur).1.countP
        isAvailEv) = 0 := by
  induction misses with
  | nil =>
    intro env envs cache cur
    unfold processMissing
    by_cases h : (env.liveId == renderId && env.activeDoc == documentUri) = true
    · rw [if_pos h]
      simp [isAvailEv]
    · rw [if_neg h]
      simp
  | cons m rest ih =>
    intro env envs cache cur
    unfold processMissing
    by_cases h :
        (!(env.liveId == renderId) || !(env.activeDoc == documentUri)) = true
    · rw [if_pos h]; simp
    · rw [if_neg h]
      cases htr : translateModel cache m.text targetLang now ttl maxSize
          oracle with
      | none =>
        simp only [htr]
        simp only [List.countP_cons, isAvailEv]
        rw [ih _ _ _ _]
        simp
      | some rc =>
        simp only [htr]
        by_cases hr : ((visibleRanges.any (fun r =>
              rangeContains r m.range || rangeIntersects r m.range) ||
            (cur ++ [createDecorationOption m.range rc.1.translatedText
              mode]).length % 5 == 0) &&
            (advance env envs).1.liveId == renderId) = true
        · rw [if_pos hr]
          simp only [List.countP_cons, List.countP_append, isAvailEv,
            List.countP_nil]
          rw [ih _ _ _ _]
          simp
        · rw [if_neg hr]
          simp only [List.countP_cons, List.countP_append, isAvailEv,
            List.countP_nil, List.nil_append]
          rw [ih _ _ _ _]
          simp

/-- The fragments requested by the miss-processing loop form a prefix
(in particular a sublist) of the ordered misses it was given. -/
theorem processMissing_requested_sublist (renderId : Nat)
    (documentUri : String) (mode : Mode) (visibleRanges : List Range)
    (targetLang : String) (now ttl : Int) (maxSize : Nat)
    (oracle : String → Option String) (misses : List Fragment) :
    ∀ (env : Env) (envs : List Env) (cache : Cache) (cur : List Deco),
    List.Sublist
      (requestedFrags (processMissing renderId documentUri mode
        visibleRanges targetLang now ttl maxSize oracle env envs cache
        misses cur).1)
      misses := by
  induction misses with
  | nil =>
    intro env envs cache cur
    unfold processMissing
    by_cases h : (env.liveId == renderId && env.activeDoc == documentUri) = true
    · rw [if_pos h]
      simp [requestedFrags]
    · rw [if_neg h]
      simp [requestedFrags]
  | cons m rest ih =>
    intro env envs cache cur
    unfold processMissing
    by_cases h :
        (!(env.liveId == renderId) || !(env.activeDoc == documentUri)) = true
    · rw [if_pos h]
      simp [requestedFrags]
    · rw [if_neg h]
      cases htr : translateModel cache m.text targetLang now ttl maxSize
          oracle with
      | none =>
        simp only [htr]
        simp only [requestedFrags, List.filterMap_cons] at ih ⊢
        exact List.Sublist.cons₂ m (ih _ _ _ _)
      | some rc =>
        simp only [htr]
        by_cases hr : ((visibleRanges.any (fun r =>
              rangeContains r m.range || rangeIntersects r m.range) ||
            (cur ++ [createDecorationOption m.range rc.1.translatedText
              mode]).length % 5 == 0) &&
            (advance env envs).1.liveId == renderId) = true
        · rw [if_pos hr]
          simp only [requestedFrags, List.filterMap_cons,
            List.filterMap_append, List.filterMap_nil, List.nil_append]
            at ih ⊢
          exact List.Sublist.cons₂ m (ih _ _ _ _)
        · rw [if_neg hr]
          simp only [requestedFrags, List.filterMap_cons,
            List.filterMap_append, List.filterMap_nil,
            List.nil_append] at ih ⊢
          exact List.Sublist.cons₂ m (ih _ _ _ _)

/-- The distance loop returns 0 whenever some visible range contains or
intersects the fragment range. -/
theorem minDistanceToVisibleGo_zero (r : Range) :
    ∀ (vs : List Range) (m : Nat) (v : Range), v ∈ vs →
    (rangeContains v r || rangeIntersects v r) = true →
    minDistanceToVisibleGo r vs m = 0 := by
  intro vs
  induction vs with
  | nil =>
    intro m v hv
    exact absurd hv (List.not_mem_nil v)
  | cons u rest ih =>
    intro m v hv hmatch
    unfold minDistanceToVisibleGo
    by_cases hu : (rangeContains u r || rangeIntersects u r) = true
    · rw [if_pos hu]
    · rw [if_neg hu]
      rcases List.mem_cons.mp hv with rfl | hv2
      · exact absurd hmatch hu
      · exact ih _ v hv2 hmatch

/-- C3: the clear of the inactive type and the batch render of all
cache hits are always the first two events of an active-mode pass, ahead
of any network activity; when every fragment has a fresh cache entry the
pass is exactly those two events — one decoration per fragment, no
availability probe, no translate call, and an untouched cache. -/
theorem updateDecorations_cache_hits_first (inp : PassInput)
    (hmode : inp.mode ≠ Mode.off) :
    ((updateDecorations inp).trace.take 2 =
      [Ev.clearRender inp.documentUri,
       Ev.renderBatch inp.documentUri ⟨inp.renderId, inp.documentUri⟩
         (cachedDecorationsOf inp)])
    ∧ ((∀ c ∈ inp.comments,
          (getCachedResult inp.cache c.text inp.targetLang inp.now
            inp.ttl).isSome = true) →
        (updateDecorations inp).trace =
          [Ev.clearRender inp.documentUri,
           Ev.renderBatch inp.documentUri ⟨inp.renderId, inp.documentUri⟩
             (cachedDecorationsOf inp)]
        ∧ (updateDecorations inp).trace.countP isNetworkEv = 0
        ∧ (cachedDecorationsOf inp).length = inp.comments.length
        ∧ (updateDecorations inp).cache = inp.cache) := by
  constructor
  · unfold updateDecorations
    rw [if_neg hmode]
    by_cases hmiss : (missingCommentsOf inp).isEmpty = true
    · rw [if_pos hmiss]
      rfl
    · rw [if_neg hmiss]
      by_cases hav : (!inp.avail) = true
      · rw [if_pos hav]
        rfl
      · rw [if_neg hav]
        rfl
  · intro hall
    have hud := updateDecorations_all_hits inp hmode hall
    refine ⟨by rw [hud], by rw [hud]; simp [isNetworkEv], ?_, by rw [hud]⟩
    unfold cachedDecorationsOf
    exact length_filterMap_isSome _ _ (fun c hc => by simp [hall c hc])

theorem updateDecorations_cache_hits_first_witness :
    ((updateDecorations
      { renderId := 3, documentUri := "d", mode := Mode.inl,
        comments := [⟨⟨⟨0, 0⟩, ⟨0, 4⟩⟩, "hi"⟩],
        visibleRanges := [], targetLang := "Vietnamese", now := 1,
        ttl := 10, maxSize := 5,
        cache := [("hi:Vietnamese", ⟨"hi", "chao", "Vietnamese", 0⟩)],
        avail := false, oracle := fun _ => none, envs := [] }).trace.countP
          isNetworkEv = 0) :=
  ((updateDecorations_cache_hits_first _ (by decide)).2
    (by decide)).2.1

/-- C8: an active-mode pass with at least one cache miss queries backend
availability exactly once, and when the probe reports unavailable the
pass is exactly the cache-hit render followed by the probe: no translate
request, no decoration batch beyond the cache hits, and an untouched
cache. -/
theorem updateDecorations_avail_once (inp : PassInput)
    (hmode : inp.mode ≠ Mode.off)
    (hmiss : missingCommentsOf inp ≠ []) :
    ((updateDecorations inp).trace.countP isAvailEv = 1)
    ∧ (inp.avail = false →
        (updateDecorations inp).trace =
          [Ev.clearRender inp.documentUri,
           Ev.renderBatch inp.documentUri ⟨inp.renderId, inp.documentUri⟩
             (cachedDecorationsOf inp),
           Ev.availQuery false ⟨inp.renderId, inp.documentUri⟩]
        ∧ (updateDecorations inp).trace.countP isTranslateEv = 0
        ∧ renderedBatches (updateDecorations inp).trace =
            [cachedDecorationsOf inp]
        ∧ (updateDecorations inp).cache = inp.cache) := by
  have hne : ¬ ((missingCommentsOf inp).isEmpty = true) := by
    rw [List.isEmpty_iff]
    exact hmiss
  constructor
  · unfold updateDecorations
    rw [if_neg hmode, if_neg hne]
    by_cases hav : (!inp.avail) = true
    · rw [if_pos hav]
      simp [isAvailEv]
    · rw [if_neg hav]
      simp only [List.countP_append, List.countP_cons, List.countP_nil,
        isAvailEv]
      rw [processMissing_countP_avail _ _ _ _ _ _ _ _ _ _ _ _ _ _]
      simp
  · intro haf
    have hav : (!inp.avail) = true := by rw [haf]; rfl
    unfold updateDecorations
    rw [if_neg hmode, if_neg hne, if_pos hav]
    refine ⟨by rw [haf]; rfl, by simp [isTranslateEv],
      by simp [renderedBatches], rfl⟩

theorem updateDecorations_avail_once_witness :
    renderedBatches (updateDecorations
      { renderId := 3, documentUri := "d", mode := Mode.inl,
        comments := [⟨⟨⟨0, 0⟩, ⟨0, 4⟩⟩, "hi"⟩],
        visibleRanges := [], targetLang := "Vietnamese", now := 1,
        ttl := 10, maxSize := 5, cache := [],
        avail := false, oracle := fun _ => none, envs := [] }).trace =
      [cachedDecorationsOf
        { renderId := 3, documentUri := "d", mode := Mode.inl,
          comments := [⟨⟨⟨0, 0⟩, ⟨0, 4⟩⟩, "hi"⟩],
          visibleRanges := [], targetLang := "Vietnamese", now := 1,
          ttl := 10, maxSize := 5, cache := [],
          avail := false, oracle := fun _ => none, envs := [] }] :=
  ((updateDecorations_avail_once _ (by decide) (by decide)).2 rfl).2.2.1

/-- C9: running `updateDecorations` twice in succession on an unchanged
document with an unchanged configuration and a cache that serves every
fragment at both instants leaves the cache untouched after the first
pass and applies the identical decoration batches in both passes,
whatever the second pass generation token, schedule, availability and
oracle are. -/
theorem updateDecorations_idempotent (inp : PassInput) (now2 : Int)
    (rid2 : Nat) (envs2 : List Env) (avail2 : Bool)
    (oracle2 : String → Option String)
    (hmode : inp.mode ≠ Mode.off)
    (hall1 : ∀ c ∈ inp.comments,
      (getCachedResult inp.cache c.text inp.targetLang inp.now
        inp.ttl).isSome = true)
    (hall2 : ∀ c ∈ inp.comments,
      (getCachedResult inp.cache c.text inp.targetLang now2
        inp.ttl).isSome = true) :
    (updateDecorations inp).cache = inp.cache
    ∧ renderedBatches (updateDecorations
        { renderId := rid2, documentUri := inp.documentUri,
          mode := inp.mode, comments := inp.comments,
          visibleRanges := inp.visibleRanges,
          targetLang := inp.targetLang, now := now2, ttl := inp.ttl,
          maxSize := inp.maxSize, cache := (updateDecorations inp).cache,
          avail := avail2, oracle := oracle2, envs := envs2 }).trace
      = renderedBatches (updateDecorations inp).trace := by
  have hud1 := updateDecorations_all_hits inp hmode hall1
  have hcache : (updateDecorations inp).cache = inp.cache := by rw [hud1]
  refine ⟨hcache, ?_⟩
  have hud2 := updateDecorations_all_hits
    { renderId := rid2, documentUri := inp.documentUri,
      mode := inp.mode, comments := inp.comments,
      visibleRanges := inp.visibleRanges,
      targetLang := inp.targetLang, now := now2, ttl := inp.ttl,
      maxSize := inp.maxSize, cache := (updateDecorations inp).cache,
      avail := avail2, oracle := oracle2, envs := envs2 }
    hmode (by intro c hc; rw [hcache]; exact hall2 c hc)
  have hcd : cachedDecorationsOf
      { renderId := rid2, documentUri := inp.documentUri,
        mode := inp.mode, comments := inp.comments,
        visibleRanges := inp.visibleRanges,
        targetLang := inp.targetLang, now := now2, ttl := inp.ttl,
        maxSize := inp.maxSize, cache := (updateDecorations inp).cache,
        avail := avail2, oracle := oracle2, envs := envs2 } =
      cachedDecorationsOf inp := by
    show List.filterMap (fun c =>
        (getCachedResult (updateDecorations inp).cache c.text
          inp.targetLang now2 inp.ttl).map
          (fun r => createDecorationOption c.range r.translatedText
            inp.mode))
      inp.comments = cachedDecorationsOf inp
    rw [hcache]
    unfold cachedDecorationsOf
    apply List.filterMap_congr
    intro c hc
    rw [getCachedResult_isSome_eq _ _ _ _ _ (hall2 c hc),
      getCachedResult_isSome_eq _ _ _ _ _ (hall1 c hc)]
  have hr2 : renderedBatches (updateDecorations
      { renderId := rid2, documentUri := inp.documentUri,
        mode := inp.mode, comments := inp.comments,
        visibleRanges := inp.visibleRanges,
        targetLang := inp.targetLang, now := now2, ttl := inp.ttl,
        maxSize := inp.maxSize, cache := (updateDecorations inp).cache,
        avail := avail2, oracle := oracle2, envs := envs2 }).trace =
      [cachedDecorationsOf
        { renderId := rid2, documentUri := inp.documentUri,
          mode := inp.mode, comments := inp.comments,
          visibleRanges := inp.visibleRanges,
          targetLang := inp.targetLang, now := now2, ttl := inp.ttl,
          maxSize := inp.maxSize, cache := (updateDecorations inp).cache,
          avail := avail2, oracle := oracle2, envs := envs2 }] := by
    rw [hud2]
    rfl
  have hr1 : renderedBatches (updateDecorations inp).trace =
      [cachedDecorationsOf inp] := by
    rw [hud1]
    rfl
  rw [hr2, hr1, hcd]

theorem updateDecorations_idempotent_witness :
    (updateDecorations
      { renderId := 3, documentUri := "d", mode := Mode.inl,
        comments := [⟨⟨⟨0, 0⟩, ⟨0, 4⟩⟩, "hi"⟩],
        visibleRanges := [], targetLang := "Vietnamese", now := 1,
        ttl := 10, maxSize := 5,
        cache := [("hi:Vietnamese", ⟨"hi", "chao", "Vietnamese", 0⟩)],
        avail := true, oracle := fun _ => none, envs := [] }).cache =
      [("hi:Vietnamese", ⟨"hi", "chao", "Vietnamese", 0⟩)] :=
  (updateDecorations_idempotent _ 2 4 [] false (fun _ => none)
    (by decide) (by decide) (by decide)).1

/-- C7 counterexample: the distance of a fragment to a visible range can
be zero although the ranges neither intersect nor contain one another —
here they share line 5 but their character spans are disjoint — so the
claimed biconditional is false. -/
theorem minDistance_zero_not_iff :
    minDistanceToVisible ⟨⟨5, 20⟩, ⟨5, 25⟩⟩ [⟨⟨5, 0⟩, ⟨5, 10⟩⟩] = 0
    ∧ rangeContains ⟨⟨5, 0⟩, ⟨5, 10⟩⟩ ⟨⟨5, 20⟩, ⟨5, 25⟩⟩ = false
    ∧ rangeIntersects ⟨⟨5, 0⟩, ⟨5, 10⟩⟩ ⟨⟨5, 20⟩, ⟨5, 25⟩⟩ = false := by
  refine ⟨by decide, by decide, by decide⟩

/-- C7 amended: in every pass, the fragments sent to the backend are in
ascending order of line distance to the nearest visible range (they are
a prefix of the misses sorted by that distance, which is a permutation
of the misses); the distance is zero if the fragment range intersects or
is contained in some visible range, but not only then: it is also zero
for a disjoint fragment sharing a start or end line with a visible
range. -/
theorem viewport_order_amended (inp : PassInput) :
    List.Pairwise (distRel inp.visibleRanges)
      (requestedFrags (updateDecorations inp).trace)
    ∧ List.Perm
        (sortMissingByDistance inp.visibleRanges (missingCommentsOf inp))
        (missingCommentsOf inp)
    ∧ (∀ (r : Range) (vs : List Range) (v : Range), v ∈ vs →
        (rangeContains v r || rangeIntersects v r) = true →
        minDistanceToVisible r vs = 0) := by
  refine ⟨?_, List.perm_insertionSort _ _, ?_⟩
  · have hsorted : List.Pairwise (distRel inp.visibleRanges)
        (sortMissingByDistance inp.visibleRanges (missingCommentsOf inp)) :=
      List.sorted_insertionSort _ _
    unfold updateDecorations
    by_cases hoff : inp.mode = Mode.off
    · rw [if_pos hoff]
      simp [requestedFrags]
    · rw [if_neg hoff]
      by_cases hmiss : (missingCommentsOf inp).isEmpty = true
      · rw [if_pos hmiss]
        simp [requestedFrags]
      · rw [if_neg hmiss]
        by_cases hav : (!inp.avail) = true
        · rw [if_pos hav]
          simp [requestedFrags]
        · rw [if_neg hav]
          simp only [requestedFrags, List.filterMap_append,
            List.filterMap_cons, List.filterMap_nil, List.nil_append]
          have hsub := processMissing_requested_sublist
            (advance ⟨inp.renderId, inp.documentUri⟩ inp.envs).1.liveId
            inp.documentUri inp.mode inp.visibleRanges inp.targetLang
            inp.now inp.ttl inp.maxSize inp.oracle
            (sortMissingByDistance inp.visibleRanges (missingCommentsOf inp))
            (advance ⟨inp.renderId, inp.documentUri⟩ inp.envs).1
            (advance ⟨inp.renderId, inp.documentUri⟩ inp.envs).2
            inp.cache (cachedDecorationsOf inp)
          simp only [requestedFrags] at hsub
          exact List.Pairwise.sublist hsub hsorted
  · intro r vs v hv hmatch
    exact minDistanceToVisibleGo_zero r vs numberMaxValue v hv hmatch

theorem viewport_order_amended_witness :
    minDistanceToVisible ⟨⟨3, 0⟩, ⟨3, 4⟩⟩ [⟨⟨0, 0⟩, ⟨10, 0⟩⟩] = 0 :=
  (viewport_order_amended
    { renderId := 0, documentUri := "d", mode := Mode.off,
      comments := [], visibleRanges := [], targetLang := "Vietnamese",
      now := 0, ttl := 1, maxSize := 1, cache := [], avail := false,
      oracle := fun _ => none, envs := [] }).2.2
    ⟨⟨3, 0⟩, ⟨3, 4⟩⟩ [⟨⟨0, 0⟩, ⟨10, 0⟩⟩] ⟨⟨0, 0⟩, ⟨10, 0⟩⟩
    (by decide) (by decide)

end LMT
